import Mathlib

/-!
# fb2png: framebuffer to PNG conversion

A shallow embedding of `main` of `fb2png.c`, from the bits-per-pixel check
(line 142) to `return 0` (line 327), and theorems about it.

Modelling conventions.

* `int` values are `Int`; the result of every `int` operation is reduced by
  `wrapInt` (two's complement, 32 bits), which is what the machine computes
  where C leaves signed overflow undefined.  `uint32_t` and `__u32` values
  are `Nat`, reduced modulo `2^32` where the source computes with them.
* A division by zero and a shift by 32 or more bits stop the run
  (`Stop.divide_by_zero`, `Stop.shift_out_of_range`).
* The mapped framebuffer is a total function from byte offset to byte, read
  in little-endian order; a read outside the mapped region is not
  distinguished from one inside.
* The row buffer is the memory starting at `png_buffer`, a function from
  index to byte.  A store beyond the allocated size lands in that memory and
  is recorded like every other store; the log of stores tells whether the
  allocation was respected.
* libpng is outside the program: the model records the calls `main` issues
  (`SinkCall`), and every call is taken to return.  In the same way `malloc`,
  `fopen` and `mmap` are taken to succeed.
* The two `for` loops run on fuel: each iteration consumes one unit, and a
  loop that is still running when the fuel is spent yields
  `Stop.out_of_fuel`.
-/

namespace Fb2png

/-! ## Machine integers -/

/-- Smallest value of `int`. -/
def INT_MIN : Int := -2147483648

/-- Largest value of `int`. -/
def INT_MAX : Int := 2147483647

/-- Reduction of an integer to the range of `int` (two's complement). -/
def wrapInt (z : Int) : Int := (z + 2147483648) % 4294967296 - 2147483648

/-- Conversion of an integer to `unsigned int` / `uint32_t`. -/
def toU32 (z : Int) : Nat := (z % 4294967296).toNat

/-- Conversion of an integer to `png_byte` (8 bits, unsigned). -/
def toByte (z : Int) : Nat := (z % 256).toNat

/-! ## Device description and options -/

/-- The fields of `struct fb_bitfield` that `main` reads. -/
structure fb_bitfield where
  offset : Nat
  length : Nat
deriving DecidableEq, Repr

/-- The fields of `struct fb_var_screeninfo` that `main` reads. -/
structure fb_var_screeninfo where
  xres : Nat
  yres : Nat
  xoffset : Nat
  yoffset : Nat
  bits_per_pixel : Nat
  red : fb_bitfield
  green : fb_bitfield
  blue : fb_bitfield
deriving DecidableEq, Repr

/-- The fields of `struct fb_fix_screeninfo` that `main` reads. -/
structure fb_fix_screeninfo where
  line_length : Nat
deriving DecidableEq, Repr

/-- The option variables of `main` after `getopt` (lines 46-106). -/
structure Options where
  opt_compression_level : Int := -1
  opt_skip_png_creation : Bool := false
  opt_width : Int := -1
  opt_height : Int := -1
  opt_xoff : Int := 0
  opt_yoff : Int := 0
  opt_xadv : Int := 1
  opt_yadv : Int := 1
deriving DecidableEq, Repr

/-- What the rest of `main` works on: the two screen-info records, the
options, the mapped framebuffer `fbp` (byte at each offset) and the initial
contents of the memory `malloc` returns. -/
structure Input where
  vinfo : fb_var_screeninfo
  finfo : fb_fix_screeninfo
  opts : Options
  fbp : Nat → Nat
  heap : Int → Nat

/-! ## Outcomes and logs -/

/-- How a run ends. -/
inductive Stop
  | returned (status : Int)
  | exit_failure
  | divide_by_zero
  | shift_out_of_range
  | out_of_fuel
deriving DecidableEq, Repr

deriving instance DecidableEq for Except

/-- A call into libpng that writes to the output. -/
inductive SinkCall
  | png_set_IHDR (width height : Int)
  | png_set_compression_level (level : Int)
  | png_write_info
  | png_write_row (row : List Nat)
  | png_write_end
deriving DecidableEq, Repr

/-- One iteration of the column loop: the value of `x`, the byte offset
`fb_offset` read from and the indices of `png_buffer` stored to. -/
structure PixelStep where
  x : Int
  fb_offset : Nat
  stores : List Int
deriving DecidableEq, Repr

/-- One iteration of the row loop: the value of `y` and its column loop. -/
structure RowLog where
  y : Int
  pixels : List PixelStep
deriving DecidableEq, Repr

/-! ## Pixel access and conversion (lines 254-305) -/

/-- The expression `(1 << length) - 1` of lines 254-256, an `int`. -/
def channel_mask (length : Nat) : Except Stop Int :=
  if length < 32 then .ok (wrapInt (wrapInt (2 ^ length) - 1))
  else .error .shift_out_of_range

/-- The variable `bytes_per_pixel` of line 258. -/
def bytes_per_pixel (vinfo : fb_var_screeninfo) : Int :=
  wrapInt ((vinfo.bits_per_pixel / 8 : Nat) : Int)

/-- The variable `fb_offset` of lines 269-270: the operands are converted to
`unsigned int` and the sum is formed modulo `2^32`. -/
def fb_offset (vinfo : fb_var_screeninfo) (finfo : fb_fix_screeninfo) (x y : Int) : Nat :=
  (((vinfo.xoffset + toU32 x) % 4294967296 * toU32 (bytes_per_pixel vinfo)) % 4294967296
    + ((vinfo.yoffset + toU32 y) % 4294967296 * (finfo.line_length % 4294967296)) % 4294967296)
    % 4294967296

/-- The byte `*(fbp + i)`. -/
def byte_at (fbp : Nat → Nat) (i : Nat) : Nat := fbp i % 256

/-- The variable `pixel` after the `switch` of lines 272-297; the 16-bit
and 32-bit loads are little-endian. -/
def read_pixel (bits_per_pixel : Nat) (fbp : Nat → Nat) (off : Nat) : Nat :=
  if bits_per_pixel = 16 then
    byte_at fbp off + (byte_at fbp (off + 1) <<< 8)
  else if bits_per_pixel = 24 then
    let pixel := 0
    let pixel := (pixel + byte_at fbp off) % 4294967296
    let pixel := (pixel + (byte_at fbp (off + 1) <<< 8)) % 4294967296
    let pixel := (pixel + (byte_at fbp (off + 2) <<< 16)) % 4294967296
    pixel
  else if bits_per_pixel = 32 then
    byte_at fbp off + (byte_at fbp (off + 1) <<< 8) + (byte_at fbp (off + 2) <<< 16)
      + (byte_at fbp (off + 3) <<< 24)
  else 0

/-- The `png_byte` variable `r` (or `g`, `b`) of lines 299-301:
`(pixel >> offset) & mask`, converted to 8 bits. -/
def channel_raw (pixel offset : Nat) (mask : Int) : Except Stop Nat :=
  if offset < 32 then .ok (((pixel >>> offset) &&& toU32 mask) % 256)
  else .error .shift_out_of_range

/-- The byte stored by lines 303-305: `(r * 0xFF) / r_mask`, an `int`
division, converted to `png_byte`. -/
def channel_store (r : Nat) (mask : Int) : Except Stop Nat :=
  if mask = 0 then .error .divide_by_zero
  else .ok (toByte (wrapInt (Int.tdiv (wrapInt ((r : Int) * 255)) mask)))

/-- The byte stored for one channel of `pixel`: lines 254, 299 and 303 in
sequence for the channel described by `field`. -/
def channel_byte (field : fb_bitfield) (pixel : Nat) : Except Stop Nat := do
  let mask ← channel_mask field.length
  let r ← channel_raw pixel field.offset mask
  channel_store r mask

/-! ## The loops (lines 262-311) -/

/-- The statement `for (v = start; v < bound; v += adv) body`, started with
the loop variable at `v`.  The body maps the state to a new state and may
stop the run. -/
def for_loop {σ : Type} (body : Int → σ → σ × Option Stop) (bound adv : Int) :
    Nat → Int → σ → σ × Option Stop
  | 0, v, s => if v < bound then (s, some .out_of_fuel) else (s, none)
  | fuel + 1, v, s =>
    if v < bound then
      match body v s with
      | (s1, some e) => (s1, some e)
      | (s1, none) => for_loop body bound adv fuel (wrapInt (v + adv)) s1
    else (s, none)

/-- The assignment `buf[i] = v`. -/
def store (buf : Int → Nat) (i : Int) (v : Nat) : Int → Nat :=
  fun j => if j = i then v else buf j

/-- State of the column loop: the row buffer, `pb_offset` and the log. -/
structure RowState where
  png_buffer : Int → Nat
  pb_offset : Int
  pixels : List PixelStep

/-- Body of the column loop (lines 269-307) at column `x` of row `y`. -/
def pixel_body (inp : Input) (r_mask g_mask b_mask : Int) (y x : Int) (s : RowState) :
    RowState × Option Stop :=
  let off := fb_offset inp.vinfo inp.finfo x y
  let pixel := read_pixel inp.vinfo.bits_per_pixel inp.fbp off
  let log := fun (buf : Int → Nat) (stores : List Int) =>
    ({ s with png_buffer := buf,
              pixels := s.pixels ++ [{ x := x, fb_offset := off, stores := stores }] } : RowState)
  match channel_raw pixel inp.vinfo.red.offset r_mask with
  | .error e => (log s.png_buffer [], some e)
  | .ok r =>
  match channel_raw pixel inp.vinfo.green.offset g_mask with
  | .error e => (log s.png_buffer [], some e)
  | .ok g =>
  match channel_raw pixel inp.vinfo.blue.offset b_mask with
  | .error e => (log s.png_buffer [], some e)
  | .ok b =>
  match channel_store r r_mask with
  | .error e => (log s.png_buffer [], some e)
  | .ok vr =>
  let i0 := s.pb_offset
  let buf := store s.png_buffer i0 vr
  match channel_store g g_mask with
  | .error e => (log buf [i0], some e)
  | .ok vg =>
  let i1 := wrapInt (s.pb_offset + 1)
  let buf := store buf i1 vg
  match channel_store b b_mask with
  | .error e => (log buf [i0, i1], some e)
  | .ok vb =>
  let i2 := wrapInt (s.pb_offset + 2)
  let buf := store buf i2 vb
  ({ log buf [i0, i1, i2] with pb_offset := wrapInt (s.pb_offset + 3) }, none)

/-- State of the row loop: the row buffer, the calls made and the log. -/
structure State where
  png_buffer : Int → Nat
  calls : List SinkCall
  rows : List RowLog

/-- The bytes `png_write_row` takes from the row buffer: three for each of
the `width` pixels announced by `png_set_IHDR`. -/
def row_bytes (buf : Int → Nat) (width : Int) : List Nat :=
  (List.range (toU32 width * 3)).map (fun i => buf (i : Int))

/-- Body of the row loop (lines 264-310) at row `y`. -/
def row_body (inp : Input) (r_mask g_mask b_mask : Int) (rawwidth width : Int) (fuel : Nat)
    (y : Int) (s : State) : State × Option Stop :=
  let pb_offset := 0
  match for_loop (pixel_body inp r_mask g_mask b_mask y)
      (wrapInt (inp.opts.opt_xoff + rawwidth)) inp.opts.opt_xadv fuel inp.opts.opt_xoff
      { png_buffer := s.png_buffer, pb_offset := pb_offset, pixels := [] } with
  | (rs, some e) =>
    ({ s with png_buffer := rs.png_buffer,
              rows := s.rows ++ [{ y := y, pixels := rs.pixels }] }, some e)
  | (rs, none) =>
    ({ png_buffer := rs.png_buffer,
       calls := s.calls ++ [.png_write_row (row_bytes rs.png_buffer width)],
       rows := s.rows ++ [{ y := y, pixels := rs.pixels }] }, none)

/-! ## The program -/

/-- What a run of `main` leaves behind: the calls into libpng in order, the
log of the loops and how the run ended. -/
structure Result where
  calls : List SinkCall
  rows : List RowLog
  stop : Stop
deriving DecidableEq, Repr

/-- The variable `rawwidth` (lines 219-220): the conditional expression has
type `unsigned int` and is converted to `int`. -/
def rawwidth (inp : Input) : Int :=
  wrapInt (if inp.opts.opt_width = -1 then (inp.vinfo.xres : Int)
    else (toU32 inp.opts.opt_width : Int))

/-- The variable `rawheight` (lines 221-222). -/
def rawheight (inp : Input) : Int :=
  wrapInt (if inp.opts.opt_height = -1 then (inp.vinfo.yres : Int)
    else (toU32 inp.opts.opt_height : Int))

/-- The variable `width` after line 224 (`opt_xadv` is not 0 there). -/
def width (inp : Input) : Int := wrapInt (Int.tdiv (rawwidth inp) inp.opts.opt_xadv)

/-- The variable `height` after line 225 (`opt_yadv` is not 0 there). -/
def height (inp : Input) : Int := wrapInt (Int.tdiv (rawheight inp) inp.opts.opt_yadv)

/-- The argument of `malloc` in line 244, `width * 3 * sizeof(png_byte)`:
the size in bytes of the row buffer (`size_t` of 64 bits). -/
def png_buffer_size (inp : Input) : Nat :=
  (wrapInt (width inp * 3) % 18446744073709551616).toNat

/-- The function `main` from line 142 on. -/
def main (fuel : Nat) (inp : Input) : Result :=
  let vinfo := inp.vinfo
  let opts := inp.opts
  if vinfo.bits_per_pixel ≠ 16 ∧ vinfo.bits_per_pixel ≠ 24 ∧ vinfo.bits_per_pixel ≠ 32 then
    { calls := [], rows := [], stop := .exit_failure }
  else if opts.opt_skip_png_creation then
    { calls := [], rows := [], stop := .returned 0 }
  else
    if opts.opt_xadv = 0 then { calls := [], rows := [], stop := .divide_by_zero } else
    let width := width inp
    if opts.opt_yadv = 0 then { calls := [], rows := [], stop := .divide_by_zero } else
    let height := height inp
    let calls := [SinkCall.png_set_IHDR width height]
      ++ (if opts.opt_compression_level ≠ -1
          then [SinkCall.png_set_compression_level opts.opt_compression_level] else [])
      ++ [SinkCall.png_write_info]
    match channel_mask vinfo.red.length with
    | .error e => { calls := calls, rows := [], stop := e }
    | .ok r_mask =>
    match channel_mask vinfo.green.length with
    | .error e => { calls := calls, rows := [], stop := e }
    | .ok g_mask =>
    match channel_mask vinfo.blue.length with
    | .error e => { calls := calls, rows := [], stop := e }
    | .ok b_mask =>
    match for_loop (row_body inp r_mask g_mask b_mask (rawwidth inp) width fuel)
        (wrapInt (opts.opt_yoff + rawheight inp)) opts.opt_yadv fuel opts.opt_yoff
        { png_buffer := inp.heap, calls := calls, rows := [] } with
    | (s, some e) => { calls := s.calls, rows := s.rows, stop := e }
    | (s, none) =>
      { calls := s.calls ++ [SinkCall.png_write_end], rows := s.rows, stop := .returned 0 }

/-! ## Quantities used in the statements -/

/-- Quotient of `a` by `b` rounded up, for `b > 0`. -/
def ceil_div (a b : Int) : Int := (a + b - 1) / b

/-- A channel the conversion is defined for: at least one bit wide, and both
shifts of lines 254 and 299 by less than 32 bits. -/
def channel_ok (field : fb_bitfield) : Prop :=
  1 ≤ field.length ∧ field.length < 32 ∧ field.offset < 32

instance (field : fb_bitfield) : Decidable (channel_ok field) := by
  unfold channel_ok
  infer_instance

/-- A device description the program supports: one of the three bit depths
and three channels the conversion is defined for. -/
def supported (vinfo : fb_var_screeninfo) : Prop :=
  (vinfo.bits_per_pixel = 16 ∨ vinfo.bits_per_pixel = 24 ∨ vinfo.bits_per_pixel = 32) ∧
    channel_ok vinfo.red ∧ channel_ok vinfo.green ∧ channel_ok vinfo.blue

instance (vinfo : fb_var_screeninfo) : Decidable (supported vinfo) := by
  unfold supported
  infer_instance

/-- The byte offset of the pixel at column `x` and row `y` as the
specification writes it, over unbounded integers:
`(deviceXOffset + x) * bytesPerPixel + (deviceYOffset + y) * rowStrideBytes`. -/
def spec_fb_offset (vinfo : fb_var_screeninfo) (finfo : fb_fix_screeninfo) (x y : Int) : Int :=
  ((vinfo.xoffset : Int) + x) * ((vinfo.bits_per_pixel / 8 : Nat) : Int)
    + ((vinfo.yoffset : Int) + y) * (finfo.line_length : Int)

/-- The log of a column loop in row `y` is as the loop header prescribes:
step `ox` is at column `opt_xoff + ox * opt_xadv`, as an `int`, and reads
from the offset computed for that column and row. -/
def pixels_ok (inp : Input) (y : Int) (ps : List PixelStep) : Prop :=
  ∀ (ox : Nat) (px : PixelStep), ps[ox]? = some px →
    px.x = wrapInt (inp.opts.opt_xoff + ox * inp.opts.opt_xadv) ∧
    px.fb_offset = fb_offset inp.vinfo inp.finfo px.x y

/-- The log of the row loop is as the loop header prescribes: row `oy` is
at `opt_yoff + oy * opt_yadv`, as an `int`, and its columns are in order. -/
def rows_ok (inp : Input) (rows : List RowLog) : Prop :=
  ∀ (oy : Nat) (row : RowLog), rows[oy]? = some row →
    row.y = wrapInt (inp.opts.opt_yoff + oy * inp.opts.opt_yadv) ∧
    pixels_ok inp row.y row.pixels

/-- The byte of one channel as the specification writes it:
`raw = (pixelWord >> bitOffset) & mask`, `normalized = (raw * 255) / mask`
with `mask = (1 << bitWidth) - 1`, over unbounded integers. -/
def spec_channel_byte (field : fb_bitfield) (pixel : Nat) : Nat :=
  ((pixel >>> field.offset) &&& ((1 <<< field.length) - 1)) * 255 / ((1 <<< field.length) - 1)

/-! ## Concrete devices and runs -/

/-- A framebuffer holding the bytes of `l` from offset 0 on. -/
def mem (l : List Nat) : Nat → Nat := fun i => l.getD i 0

/-- A 32-bit device with 8-bit channels, R=(8,16) G=(8,8) B=(8,0). -/
def xrgb8888 (xres yres : Nat) : fb_var_screeninfo :=
  { xres := xres, yres := yres, xoffset := 0, yoffset := 0, bits_per_pixel := 32,
    red := ⟨16, 8⟩, green := ⟨8, 8⟩, blue := ⟨0, 8⟩ }

/-- A 32-bit device with 10-bit channels, R=(10,20) G=(10,10) B=(10,0). -/
def xrgb2101010 (xres yres : Nat) : fb_var_screeninfo :=
  { xres := xres, yres := yres, xoffset := 0, yoffset := 0, bits_per_pixel := 32,
    red := ⟨20, 10⟩, green := ⟨10, 10⟩, blue := ⟨0, 10⟩ }

/-- Two by two pixels of 32 bits, 8 bytes per row, captured whole. -/
def scenario_a : Input :=
  { vinfo := xrgb8888 2 2, finfo := ⟨8⟩, opts := {},
    fbp := mem [1, 2, 3, 0, 4, 5, 6, 0, 7, 8, 9, 0, 10, 11, 12, 0], heap := fun _ => 0 }

/-- One column of three rows, every second row taken (`-s 1`). -/
def three_rows_skip_one : Input :=
  { vinfo := xrgb8888 1 3, finfo := ⟨4⟩, opts := { opt_yadv := 2 },
    fbp := mem [1, 2, 3, 0, 4, 5, 6, 0, 7, 8, 9, 0], heap := fun _ => 0 }

/-- One row of three columns, every second column taken (`-t 1`). -/
def three_columns_skip_one : Input :=
  { vinfo := xrgb8888 3 1, finfo := ⟨12⟩, opts := { opt_xadv := 2 },
    fbp := mem [1, 2, 3, 0, 4, 5, 6, 0, 7, 8, 9, 0], heap := fun _ => 0 }

/-- A device whose red channel is reported with no bits. -/
def no_red_bits : Input :=
  { vinfo := { xrgb8888 1 1 with red := ⟨16, 0⟩ }, finfo := ⟨4⟩, opts := {},
    fbp := mem [1, 2, 3, 0], heap := fun _ => 0 }

/-- One white pixel on the device with 10-bit channels. -/
def white_2101010 : Input :=
  { vinfo := xrgb2101010 1 1, finfo := ⟨4⟩, opts := {},
    fbp := mem [255, 255, 255, 63], heap := fun _ => 0 }

/-- A device 2048 pixels wide (8192 bytes per row), one pixel captured at
row 524288 (`-y 524288 -w 1 -h 1`). -/
def far_row : Input :=
  { vinfo := xrgb8888 2048 2048, finfo := ⟨8192⟩,
    opts := { opt_yoff := 524288, opt_width := 1, opt_height := 1 },
    fbp := mem [1, 2, 3, 0], heap := fun _ => 0 }

/-- A row of `2^30 + 1` columns of which every `2^30`-th is taken
(`-w 1073741825 -h 1 -t 1073741823`). -/
def wide_stride : Input :=
  { vinfo := xrgb8888 2 2, finfo := ⟨8⟩,
    opts := { opt_width := 1073741825, opt_height := 1, opt_xadv := 1073741824 },
    fbp := mem [1, 2, 3, 0], heap := fun _ => 0 }

/-- The calls `main` makes before the loops (lines 227-242). -/
def header_calls (inp : Input) : List SinkCall :=
  [SinkCall.png_set_IHDR (rawwidth inp / inp.opts.opt_xadv) (rawheight inp / inp.opts.opt_yadv)]
    ++ (if inp.opts.opt_compression_level ≠ -1
        then [SinkCall.png_set_compression_level inp.opts.opt_compression_level] else [])
    ++ [SinkCall.png_write_info]

/-! ## Machine integers: basic facts -/

theorem wrapInt_eq_self {z : Int} (h1 : -2147483648 ≤ z) (h2 : z ≤ 2147483647) :
    wrapInt z = z := by
  unfold wrapInt
  omega

theorem wrapInt_of_range {z : Int} (h1 : INT_MIN ≤ z) (h2 : z ≤ INT_MAX) : wrapInt z = z :=
  wrapInt_eq_self h1 h2

theorem toByte_of_lt {z : Int} (h1 : 0 ≤ z) (h2 : z < 256) : toByte z = z.toNat := by
  unfold toByte
  omega

theorem channel_mask_eq {length : Nat} (h : length < 32) :
    channel_mask length = .ok ((2 : Int) ^ length - 1) := by
  unfold channel_mask
  rw [if_pos h]
  interval_cases length <;> rfl

theorem toU32_mask {length : Nat} (h : length < 32) :
    toU32 ((2 : Int) ^ length - 1) = 2 ^ length - 1 := by
  interval_cases length <;> rfl

/-! ## Channel conversion -/

theorem channel_byte_eq (field : fb_bitfield) (pixel : Nat) (h1 : 1 ≤ field.length)
    (h2 : field.length < 32) (ho : field.offset < 32) :
    channel_byte field pixel
      = .ok ((((pixel >>> field.offset) &&& (2 ^ field.length - 1)) % 256) * 255
          / (2 ^ field.length - 1)) := by
  have hm1 : 1 ≤ 2 ^ field.length - 1 := by
    have : 2 ^ 1 ≤ 2 ^ field.length := Nat.pow_le_pow_right (by decide) h1
    omega
  have hcast : ((2 : Int) ^ field.length - 1) = ((2 ^ field.length - 1 : Nat) : Int) := by
    have : 1 ≤ 2 ^ field.length := Nat.one_le_two_pow
    push_cast [Nat.cast_sub this]
    rfl
  generalize hr : ((pixel >>> field.offset) &&& (2 ^ field.length - 1)) % 256 = r
  have hr256 : r < 256 := by rw [← hr]; exact Nat.mod_lt _ (by decide)
  have hrm : r ≤ 2 ^ field.length - 1 := by
    rw [← hr]
    exact le_trans (Nat.mod_le _ _) Nat.and_le_right
  have hq : r * 255 / (2 ^ field.length - 1) ≤ 255 := by
    apply Nat.div_le_of_le_mul
    exact Nat.mul_le_mul_right 255 hrm
  unfold channel_byte
  rw [channel_mask_eq h2]
  simp only [bind, Except.bind, channel_raw, if_pos ho, toU32_mask h2, hr, channel_store]
  rw [hcast]
  have hne : ((2 ^ field.length - 1 : Nat) : Int) ≠ 0 := by
    exact_mod_cast (by omega : 2 ^ field.length - 1 ≠ 0)
  rw [if_neg hne]
  have hw1 : wrapInt ((r : Int) * 255) = ((r * 255 : Nat) : Int) := by
    push_cast
    apply wrapInt_eq_self <;> omega
  rw [hw1, ← Int.ofNat_tdiv]
  generalize r * 255 / (2 ^ field.length - 1) = q at hq
  have hw2 : wrapInt (q : Int) = (q : Int) := by
    apply wrapInt_eq_self <;> omega
  rw [hw2, toByte_of_lt (by omega) (by omega)]
  simp

/-! ## The loop statement -/

theorem ceil_div_of_not_lt {v bound adv : Int} (hadv : 1 ≤ adv) (h : ¬ v < bound) :
    (ceil_div (bound - v) adv).toNat = 0 := by
  unfold ceil_div
  have : (bound - v + adv - 1) / adv < 1 := by
    apply Int.ediv_lt_of_lt_mul (by omega)
    omega
  omega

theorem ceil_div_of_lt {v bound adv : Int} (hadv : 1 ≤ adv) (h : v < bound) :
    ceil_div (bound - v) adv = ceil_div (bound - (v + adv)) adv + 1 ∧
      0 ≤ ceil_div (bound - (v + adv)) adv := by
  unfold ceil_div
  have hne : adv ≠ 0 := by omega
  have e : bound - v + adv - 1 = (bound - (v + adv) + adv - 1) + 1 * adv := by ring
  constructor
  · rw [e, Int.add_mul_ediv_right _ _ hne]
  · apply Int.ediv_nonneg <;> omega

/-- A loop whose body never stops, started with enough fuel and with a final
value of the loop variable that fits in `int`, runs `ceil_div (bound - v) adv`
iterations and ends normally.  `I` is an invariant of the state and `len` a
quantity every iteration increases by one. -/
theorem for_loop_runs {σ : Type} (body : Int → σ → σ × Option Stop) (bound adv : Int)
    (I : σ → Prop) (len : σ → Nat) (hadv : 1 ≤ adv)
    (hbody : ∀ v s, I s → (body v s).2 = none ∧ I (body v s).1 ∧ len (body v s).1 = len s + 1)
    (fuel : Nat) : ∀ (v : Int) (s : σ), I s → INT_MIN ≤ v →
      v + ceil_div (bound - v) adv * adv ≤ INT_MAX →
      (ceil_div (bound - v) adv).toNat ≤ fuel →
      (for_loop body bound adv fuel v s).2 = none ∧ I (for_loop body bound adv fuel v s).1 ∧
        len (for_loop body bound adv fuel v s).1 = len s + (ceil_div (bound - v) adv).toNat := by
  induction fuel with
  | zero =>
    intro v s hI _ _ hfuel
    by_cases hlt : v < bound
    · obtain ⟨e, h0⟩ := ceil_div_of_lt hadv hlt
      omega
    · simp [for_loop, hlt, hI, ceil_div_of_not_lt hadv hlt]
  | succ fuel ih =>
    intro v s hI hv hfin hfuel
    by_cases hlt : v < bound
    · obtain ⟨e, h0⟩ := ceil_div_of_lt hadv hlt
      obtain ⟨hb1, hb2, hb3⟩ := hbody v s hI
      have hmul : 0 ≤ ceil_div (bound - (v + adv)) adv * adv := Int.mul_nonneg h0 (by omega)
      have hfin2 : v + adv + ceil_div (bound - (v + adv)) adv * adv ≤ INT_MAX := by
        rw [e] at hfin
        linarith
      have hw : wrapInt (v + adv) = v + adv := by
        apply wrapInt_of_range
        · unfold INT_MIN at *; omega
        · linarith
      have hstep : for_loop body bound adv (fuel + 1) v s
          = for_loop body bound adv fuel (v + adv) (body v s).1 := by
        rw [for_loop, if_pos hlt]
        rcases hbv : body v s with ⟨s1, o⟩
        rw [hbv] at hb1
        simp only at hb1
        subst hb1
        simp [hw]
      have := ih (v + adv) (body v s).1 hb2 (by unfold INT_MIN at *; omega) hfin2 (by omega)
      rw [hstep]
      refine ⟨this.1, this.2.1, ?_⟩
      rw [this.2.2, hb3]
      omega
    · simp [for_loop, hlt, hI, ceil_div_of_not_lt hadv hlt]

/-- Invariant rule for the loop statement, whether or not it ends normally:
`J` relates the loop variable and the state before each test of the
condition, `K` holds of the state the loop leaves behind. -/
theorem for_loop_invariant {σ : Type} (body : Int → σ → σ × Option Stop) (bound adv : Int)
    (J : Int → σ → Prop) (K : σ → Prop) (hJK : ∀ v s, J v s → K s)
    (hstep : ∀ v s, J v s → (body v s).2 = none → J (wrapInt (v + adv)) (body v s).1)
    (hstop : ∀ v s, J v s → K (body v s).1)
    (fuel : Nat) : ∀ (v : Int) (s : σ), J v s → K (for_loop body bound adv fuel v s).1 := by
  induction fuel with
  | zero =>
    intro v s hJ
    unfold for_loop
    split <;> exact hJK v s hJ
  | succ fuel ih =>
    intro v s hJ
    rw [for_loop]
    by_cases hlt : v < bound
    · rw [if_pos hlt]
      have h1 := hstep v s hJ
      have h2 := hstop v s hJ
      rcases hbv : body v s with ⟨s1, o⟩
      rw [hbv] at h1 h2
      cases o with
      | none => exact ih _ _ (h1 rfl)
      | some e => exact h2
    · rw [if_neg hlt]
      exact hJK v s hJ

/-! ## The column loop -/

/-- Every iteration of the column loop logs exactly one step, for its own
`x` and the offset computed from it, whether or not it stops. -/
theorem pixel_body_pixels (inp : Input) (r_mask g_mask b_mask : Int) (y x : Int) (s : RowState) :
    ∃ stores, (pixel_body inp r_mask g_mask b_mask y x s).1.pixels
      = s.pixels ++ [{ x := x, fb_offset := fb_offset inp.vinfo inp.finfo x y,
                       stores := stores }] := by
  unfold pixel_body
  simp only []
  repeat' split
  all_goals exact ⟨_, rfl⟩

/-- With non-zero masks and bit offsets below 32 the body of the column loop
does not stop. -/
theorem pixel_body_continues (inp : Input) (r_mask g_mask b_mask : Int) (y x : Int)
    (s : RowState) (hr : r_mask ≠ 0) (hg : g_mask ≠ 0) (hb : b_mask ≠ 0)
    (hro : inp.vinfo.red.offset < 32) (hgo : inp.vinfo.green.offset < 32)
    (hbo : inp.vinfo.blue.offset < 32) :
    (pixel_body inp r_mask g_mask b_mask y x s).2 = none := by
  unfold pixel_body
  simp [channel_raw, channel_store, hr, hg, hb, hro, hgo, hbo]

/-- The bytes the body of the column loop stores are the three channel
bytes of the pixel it reads, in the order red, green, blue, at `pb_offset`,
`pb_offset + 1` and `pb_offset + 2`. -/
theorem pixel_body_stores (inp : Input) (r_mask g_mask b_mask : Int) (y x : Int) (s : RowState)
    (vr vg vb : Nat)
    (hrm : channel_mask inp.vinfo.red.length = Except.ok r_mask)
    (hgm : channel_mask inp.vinfo.green.length = Except.ok g_mask)
    (hbm : channel_mask inp.vinfo.blue.length = Except.ok b_mask)
    (hr : channel_byte inp.vinfo.red
      (read_pixel inp.vinfo.bits_per_pixel inp.fbp (fb_offset inp.vinfo inp.finfo x y))
        = Except.ok vr)
    (hg : channel_byte inp.vinfo.green
      (read_pixel inp.vinfo.bits_per_pixel inp.fbp (fb_offset inp.vinfo inp.finfo x y))
        = Except.ok vg)
    (hb : channel_byte inp.vinfo.blue
      (read_pixel inp.vinfo.bits_per_pixel inp.fbp (fb_offset inp.vinfo inp.finfo x y))
        = Except.ok vb) :
    pixel_body inp r_mask g_mask b_mask y x s =
      ({ png_buffer := store (store (store s.png_buffer s.pb_offset vr)
            (wrapInt (s.pb_offset + 1)) vg) (wrapInt (s.pb_offset + 2)) vb,
         pb_offset := wrapInt (s.pb_offset + 3),
         pixels := s.pixels ++ [
           { x := x, fb_offset := fb_offset inp.vinfo inp.finfo x y,
             stores := [s.pb_offset, wrapInt (s.pb_offset + 1),
               wrapInt (s.pb_offset + 2)] }] }, none) := by
  unfold channel_byte at hr hg hb
  rw [hrm] at hr
  rw [hgm] at hg
  rw [hbm] at hb
  simp only [bind, Except.bind] at hr hg hb
  split at hr
  · cases hr
  · rename_i r her
    split at hg
    · cases hg
    · rename_i g heg
      split at hb
      · cases hb
      · rename_i b heb
        unfold pixel_body
        simp only [her, heg, heb, hr, hg, hb]

/-- With non-zero masks and bit offsets below 32 the column loop of a row
ends normally after `ceil_div rawwidth opt_xadv` iterations. -/
theorem column_loop_runs (inp : Input) (r_mask g_mask b_mask : Int) (y : Int) (raw : Int)
    (fuel : Nat) (s : RowState) (hr : r_mask ≠ 0) (hg : g_mask ≠ 0) (hb : b_mask ≠ 0)
    (hro : inp.vinfo.red.offset < 32) (hgo : inp.vinfo.green.offset < 32)
    (hbo : inp.vinfo.blue.offset < 32) (hraw : 0 ≤ raw) (hadv : 1 ≤ inp.opts.opt_xadv)
    (hoff : INT_MIN ≤ inp.opts.opt_xoff)
    (hfin : inp.opts.opt_xoff + ceil_div raw inp.opts.opt_xadv * inp.opts.opt_xadv ≤ INT_MAX)
    (hfuel : (ceil_div raw inp.opts.opt_xadv).toNat ≤ fuel) :
    (for_loop (pixel_body inp r_mask g_mask b_mask y) (wrapInt (inp.opts.opt_xoff + raw))
        inp.opts.opt_xadv fuel inp.opts.opt_xoff s).2 = none ∧
    (for_loop (pixel_body inp r_mask g_mask b_mask y) (wrapInt (inp.opts.opt_xoff + raw))
        inp.opts.opt_xadv fuel inp.opts.opt_xoff s).1.pixels.length
      = s.pixels.length + (ceil_div raw inp.opts.opt_xadv).toNat := by
  have hle : raw ≤ ceil_div raw inp.opts.opt_xadv * inp.opts.opt_xadv := by
    unfold ceil_div
    have h1 := Int.emod_add_ediv (raw + inp.opts.opt_xadv - 1) inp.opts.opt_xadv
    have h2 := Int.emod_lt_of_pos (raw + inp.opts.opt_xadv - 1)
      (show 0 < inp.opts.opt_xadv by omega)
    have h3 : inp.opts.opt_xadv * ((raw + inp.opts.opt_xadv - 1) / inp.opts.opt_xadv)
        = (raw + inp.opts.opt_xadv - 1) / inp.opts.opt_xadv * inp.opts.opt_xadv :=
      Int.mul_comm _ _
    omega
  have hbound : wrapInt (inp.opts.opt_xoff + raw) = inp.opts.opt_xoff + raw := by
    apply wrapInt_of_range
    · unfold INT_MIN at *; omega
    · omega
  have hsub : inp.opts.opt_xoff + raw - inp.opts.opt_xoff = raw := by ring
  have := for_loop_runs (pixel_body inp r_mask g_mask b_mask y)
    (inp.opts.opt_xoff + raw) inp.opts.opt_xadv (fun _ => True) (fun s => s.pixels.length) hadv
    (by
      intro v s _
      refine ⟨pixel_body_continues inp r_mask g_mask b_mask y v s hr hg hb hro hgo hbo,
        trivial, ?_⟩
      obtain ⟨st, hst⟩ := pixel_body_pixels inp r_mask g_mask b_mask y v s
      simp [hst])
    fuel inp.opts.opt_xoff s trivial hoff (by rw [hsub]; exact hfin) (by rw [hsub]; exact hfuel)
  rw [hsub] at this
  rw [hbound]
  exact ⟨this.1, this.2.2⟩

/-! ## The row loop -/

/-- With non-zero masks and bit offsets below 32 the body of the row loop
does not stop: it logs one row of `ceil_div rawwidth opt_xadv` pixels and
makes one call of `png_write_row`. -/
theorem row_body_runs (inp : Input) (r_mask g_mask b_mask : Int) (raw width : Int)
    (fuel : Nat) (y : Int) (s : State) (hr : r_mask ≠ 0) (hg : g_mask ≠ 0) (hb : b_mask ≠ 0)
    (hro : inp.vinfo.red.offset < 32) (hgo : inp.vinfo.green.offset < 32)
    (hbo : inp.vinfo.blue.offset < 32) (hraw : 0 ≤ raw) (hadv : 1 ≤ inp.opts.opt_xadv)
    (hoff : INT_MIN ≤ inp.opts.opt_xoff)
    (hfin : inp.opts.opt_xoff + ceil_div raw inp.opts.opt_xadv * inp.opts.opt_xadv ≤ INT_MAX)
    (hfuel : (ceil_div raw inp.opts.opt_xadv).toNat ≤ fuel) :
    (row_body inp r_mask g_mask b_mask raw width fuel y s).2 = none ∧
    ∃ (row : RowLog) (bytes : List Nat),
      row.pixels.length = (ceil_div raw inp.opts.opt_xadv).toNat ∧
      (row_body inp r_mask g_mask b_mask raw width fuel y s).1.rows = s.rows ++ [row] ∧
      (row_body inp r_mask g_mask b_mask raw width fuel y s).1.calls
        = s.calls ++ [SinkCall.png_write_row bytes] := by
  have h := column_loop_runs inp r_mask g_mask b_mask y raw fuel
    { png_buffer := s.png_buffer, pb_offset := 0, pixels := [] }
    hr hg hb hro hgo hbo hraw hadv hoff hfin hfuel
  unfold row_body
  simp only []
  rcases hl : for_loop (pixel_body inp r_mask g_mask b_mask y)
    (wrapInt (inp.opts.opt_xoff + raw)) inp.opts.opt_xadv fuel inp.opts.opt_xoff
    { png_buffer := s.png_buffer, pb_offset := 0, pixels := [] } with ⟨rs, o⟩
  rw [hl] at h
  obtain ⟨h1, h2⟩ := h
  simp only at h1 h2
  subst h1
  simp only [List.length_nil, Nat.zero_add] at h2
  exact ⟨rfl, ⟨y, rs.pixels⟩, _, h2, rfl, rfl⟩

theorem wrapInt_range (z : Int) : INT_MIN ≤ wrapInt z ∧ wrapInt z ≤ INT_MAX := by
  unfold wrapInt INT_MIN INT_MAX
  omega

theorem ceil_div_mul_ge (raw : Int) {adv : Int} (hadv : 1 ≤ adv) :
    raw ≤ ceil_div raw adv * adv := by
  unfold ceil_div
  have h1 := Int.emod_add_ediv (raw + adv - 1) adv
  have h2 := Int.emod_lt_of_pos (raw + adv - 1) (show 0 < adv by omega)
  have h3 : adv * ((raw + adv - 1) / adv) = (raw + adv - 1) / adv * adv := Int.mul_comm _ _
  omega

theorem ceil_div_nonneg {raw adv : Int} (hraw : 0 ≤ raw) (hadv : 1 ≤ adv) :
    0 ≤ ceil_div raw adv := by
  unfold ceil_div
  apply Int.ediv_nonneg <;> omega

/-- The value `main` passes as width (or height) to `png_set_IHDR`. -/
theorem wrapInt_tdiv {raw adv : Int} (hraw : 0 ≤ raw) (hmax : raw ≤ INT_MAX) (hadv : 1 ≤ adv) :
    wrapInt (Int.tdiv raw adv) = raw / adv := by
  rw [Int.tdiv_eq_ediv hraw (by omega)]
  have h0 : 0 ≤ raw / adv := Int.ediv_nonneg hraw (by omega)
  have h1 : raw / adv ≤ raw := Int.ediv_le_self _ hraw
  apply wrapInt_of_range
  · unfold INT_MIN; omega
  · omega

/-- A run of `main` on a supported device and a geometry whose loop
variables stay within `int`: the trace of calls, the log and the result. -/
theorem main_runs (inp : Input) (fuel : Nat) (hdev : supported inp.vinfo)
    (hskip : inp.opts.opt_skip_png_creation = false)
    (hw : 0 ≤ rawwidth inp) (hh : 0 ≤ rawheight inp)
    (hxa : 1 ≤ inp.opts.opt_xadv) (hya : 1 ≤ inp.opts.opt_yadv)
    (hx0 : INT_MIN ≤ inp.opts.opt_xoff) (hy0 : INT_MIN ≤ inp.opts.opt_yoff)
    (hx1 : inp.opts.opt_xoff + ceil_div (rawwidth inp) inp.opts.opt_xadv * inp.opts.opt_xadv
      ≤ INT_MAX)
    (hy1 : inp.opts.opt_yoff + ceil_div (rawheight inp) inp.opts.opt_yadv * inp.opts.opt_yadv
      ≤ INT_MAX)
    (hfx : (ceil_div (rawwidth inp) inp.opts.opt_xadv).toNat ≤ fuel)
    (hfy : (ceil_div (rawheight inp) inp.opts.opt_yadv).toNat ≤ fuel) :
    (main fuel inp).stop = Stop.returned 0 ∧
    (main fuel inp).rows.length = (ceil_div (rawheight inp) inp.opts.opt_yadv).toNat ∧
    (∀ row ∈ (main fuel inp).rows,
      row.pixels.length = (ceil_div (rawwidth inp) inp.opts.opt_xadv).toNat) ∧
    ∃ data : List (List Nat),
      data.length = (ceil_div (rawheight inp) inp.opts.opt_yadv).toNat ∧
      (main fuel inp).calls
        = header_calls inp ++ data.map SinkCall.png_write_row ++ [SinkCall.png_write_end] := by
  obtain ⟨hbpp, ⟨hr1, hr2, hr3⟩, ⟨hg1, hg2, hg3⟩, ⟨hb1, hb2, hb3⟩⟩ := hdev
  have hmask : ∀ n : Nat, 1 ≤ n → n < 32 → ((2 : Int) ^ n - 1) ≠ 0 := by
    intro n h1 h2
    interval_cases n <;> decide
  have hwd := wrapInt_tdiv hw (wrapInt_range _).2 hxa
  have hhd := wrapInt_tdiv hh (wrapInt_range _).2 hya
  have hbound : wrapInt (inp.opts.opt_yoff + rawheight inp) = inp.opts.opt_yoff + rawheight inp := by
    have := ceil_div_mul_ge (rawheight inp) hya
    apply wrapInt_of_range
    · unfold INT_MIN at *; omega
    · omega
  have hsub : inp.opts.opt_yoff + rawheight inp - inp.opts.opt_yoff = rawheight inp := by ring
  have hloop := for_loop_runs
    (row_body inp (2 ^ inp.vinfo.red.length - 1) (2 ^ inp.vinfo.green.length - 1)
      (2 ^ inp.vinfo.blue.length - 1) (rawwidth inp) (rawwidth inp / inp.opts.opt_xadv) fuel)
    (inp.opts.opt_yoff + rawheight inp) inp.opts.opt_yadv
    (fun s => (∀ row ∈ s.rows,
        row.pixels.length = (ceil_div (rawwidth inp) inp.opts.opt_xadv).toNat) ∧
      ∃ data : List (List Nat), data.length = s.rows.length ∧
        s.calls = header_calls inp ++ data.map SinkCall.png_write_row)
    (fun s => s.rows.length) hya
    (by
      intro v s ⟨hI1, data, hd1, hd2⟩
      obtain ⟨e1, row, bytes, e2, e3, e4⟩ := row_body_runs inp (2 ^ inp.vinfo.red.length - 1)
        (2 ^ inp.vinfo.green.length - 1) (2 ^ inp.vinfo.blue.length - 1) (rawwidth inp)
        (rawwidth inp / inp.opts.opt_xadv) fuel v s (hmask _ hr1 hr2) (hmask _ hg1 hg2)
        (hmask _ hb1 hb2) hr3 hg3 hb3 hw hxa hx0 hx1 hfx
      refine ⟨e1, ⟨?_, data ++ [bytes], ?_, ?_⟩, ?_⟩
      · intro r hr
        rw [e3] at hr
        rcases List.mem_append.mp hr with h | h
        · exact hI1 r h
        · rw [List.mem_singleton.mp h]; exact e2
      · simp [e3, hd1]
      · simp [e4, hd2]
      · simp [e3])
    fuel inp.opts.opt_yoff
    { png_buffer := inp.heap, calls := header_calls inp, rows := [] }
    ⟨by simp, [], by simp, by simp⟩ hy0 (by rw [hsub]; exact hy1) (by rw [hsub]; exact hfy)
  rw [hsub] at hloop
  have hmain : main fuel inp =
      { calls := (for_loop (row_body inp (2 ^ inp.vinfo.red.length - 1)
            (2 ^ inp.vinfo.green.length - 1) (2 ^ inp.vinfo.blue.length - 1) (rawwidth inp)
            (rawwidth inp / inp.opts.opt_xadv) fuel) (inp.opts.opt_yoff + rawheight inp)
            inp.opts.opt_yadv fuel inp.opts.opt_yoff
            { png_buffer := inp.heap, calls := header_calls inp, rows := [] }).1.calls
          ++ [SinkCall.png_write_end],
        rows := (for_loop (row_body inp (2 ^ inp.vinfo.red.length - 1)
            (2 ^ inp.vinfo.green.length - 1) (2 ^ inp.vinfo.blue.length - 1) (rawwidth inp)
            (rawwidth inp / inp.opts.opt_xadv) fuel) (inp.opts.opt_yoff + rawheight inp)
            inp.opts.opt_yadv fuel inp.opts.opt_yoff
            { png_buffer := inp.heap, calls := header_calls inp, rows := [] }).1.rows,
        stop := Stop.returned 0 } := by
    unfold main
    have hnot : ¬ (inp.vinfo.bits_per_pixel ≠ 16 ∧ inp.vinfo.bits_per_pixel ≠ 24 ∧
        inp.vinfo.bits_per_pixel ≠ 32) := by omega
    have hxa0 : inp.opts.opt_xadv ≠ 0 := by omega
    have hya0 : inp.opts.opt_yadv ≠ 0 := by omega
    simp only [width, height, if_neg hnot, hskip, if_neg hxa0, if_neg hya0, channel_mask_eq hr2,
      channel_mask_eq hg2, channel_mask_eq hb2, hwd, hhd, hbound]
    rcases hl : for_loop (row_body inp (2 ^ inp.vinfo.red.length - 1)
            (2 ^ inp.vinfo.green.length - 1) (2 ^ inp.vinfo.blue.length - 1) (rawwidth inp)
            (rawwidth inp / inp.opts.opt_xadv) fuel) (inp.opts.opt_yoff + rawheight inp)
            inp.opts.opt_yadv fuel inp.opts.opt_yoff
            { png_buffer := inp.heap, calls := header_calls inp, rows := [] } with ⟨s, o⟩
    rw [hl] at hloop
    have ho : o = none := hloop.1
    subst ho
    simp [header_calls] at hl ⊢
    rw [hl]
  obtain ⟨_, ⟨hI1, data, hd1, hd2⟩, hlen⟩ := hloop
  rw [hmain]
  simp only [List.length_nil, Nat.zero_add] at hlen
  refine ⟨rfl, hlen, hI1, data, by rw [hd1, hlen], ?_⟩
  simp only [hd2]

/-! ## Which pixel is read -/

theorem wrapInt_add_wrapInt (a b : Int) : wrapInt (wrapInt a + b) = wrapInt (a + b) := by
  unfold wrapInt
  omega

theorem toU32_cast (z : Int) : ((toU32 z : Nat) : Int) = z % 4294967296 := by
  unfold toU32
  omega

theorem toU32_wrapInt_modEq (z : Int) :
    ((toU32 (wrapInt z) : Nat) : Int) ≡ z [ZMOD 4294967296] := by
  unfold Int.ModEq
  rw [toU32_cast]
  unfold wrapInt
  omega

/-- The offset the program computes is the specification's offset reduced
modulo `2^32`, also where the loop variables have wrapped around. -/
theorem fb_offset_wrap (vinfo : fb_var_screeninfo) (finfo : fb_fix_screeninfo) (x y : Int) :
    ((fb_offset vinfo finfo (wrapInt x) (wrapInt y) : Nat) : Int)
      = spec_fb_offset vinfo finfo x y % 4294967296 := by
  have hx := toU32_wrapInt_modEq x
  have hy := toU32_wrapInt_modEq y
  have hb : ((toU32 (bytes_per_pixel vinfo) : Nat) : Int)
      ≡ ((vinfo.bits_per_pixel / 8 : Nat) : Int) [ZMOD 4294967296] := by
    unfold bytes_per_pixel
    exact toU32_wrapInt_modEq _
  push_cast at hb
  unfold fb_offset spec_fb_offset
  rw [Int.natCast_mod]
  change Int.ModEq 4294967296 _ _
  push_cast
  apply Int.ModEq.add
  · refine (Int.mod_modEq _ _).trans ?_
    apply Int.ModEq.mul _ hb
    refine (Int.mod_modEq _ _).trans ?_
    exact Int.ModEq.add_left _ hx
  · refine (Int.mod_modEq _ _).trans ?_
    apply Int.ModEq.mul _ (Int.mod_modEq _ _)
    refine (Int.mod_modEq _ _).trans ?_
    exact Int.ModEq.add_left _ hy

theorem pixels_ok_append (inp : Input) (y : Int) (ps : List PixelStep) (stores : List Int)
    (h : pixels_ok inp y ps) :
    pixels_ok inp y (ps ++ [
      { x := wrapInt (inp.opts.opt_xoff + ps.length * inp.opts.opt_xadv),
        fb_offset := fb_offset inp.vinfo inp.finfo
          (wrapInt (inp.opts.opt_xoff + ps.length * inp.opts.opt_xadv)) y,
        stores := stores }]) := by
  intro ox px hpx
  by_cases hlt : ox < ps.length
  · rw [List.getElem?_append_left hlt] at hpx
    exact h ox px hpx
  · by_cases heq : ox = ps.length
    · subst heq
      simp at hpx
      subst hpx
      exact ⟨rfl, rfl⟩
    · rw [List.getElem?_eq_none (by simp; omega)] at hpx
      cases hpx

/-- The log of a column loop is as the loop header prescribes, for every
fuel and whether or not the loop ends normally. -/
theorem column_loop_pixels (inp : Input) (r_mask g_mask b_mask : Int) (y bound : Int)
    (fuel : Nat) (buf : Int → Nat) (pb : Int)
    (hx0 : INT_MIN ≤ inp.opts.opt_xoff) (hx1 : inp.opts.opt_xoff ≤ INT_MAX) :
    pixels_ok inp y (for_loop (pixel_body inp r_mask g_mask b_mask y) bound
      inp.opts.opt_xadv fuel inp.opts.opt_xoff
      { png_buffer := buf, pb_offset := pb, pixels := [] }).1.pixels := by
  apply for_loop_invariant (pixel_body inp r_mask g_mask b_mask y) bound inp.opts.opt_xadv
    (fun v s => v = wrapInt (inp.opts.opt_xoff + s.pixels.length * inp.opts.opt_xadv) ∧
      pixels_ok inp y s.pixels)
    (fun s => pixels_ok inp y s.pixels)
  · intro v s h
    exact h.2
  · intro v s ⟨hv, hok⟩ _
    obtain ⟨st, hst⟩ := pixel_body_pixels inp r_mask g_mask b_mask y v s
    rw [hst]
    constructor
    · rw [hv, wrapInt_add_wrapInt]
      congr 1
      simp
      ring
    · rw [hv]
      exact pixels_ok_append inp y s.pixels st hok
  · intro v s ⟨hv, hok⟩
    obtain ⟨st, hst⟩ := pixel_body_pixels inp r_mask g_mask b_mask y v s
    rw [hst, hv]
    exact pixels_ok_append inp y s.pixels st hok
  · constructor
    · simp [wrapInt_of_range hx0 hx1]
    · intro ox px h
      simp at h

/-- Every iteration of the row loop logs exactly one row: its own `y` and
the log of its column loop, whether or not it stops. -/
theorem row_body_rows (inp : Input) (r_mask g_mask b_mask : Int) (raw width : Int)
    (fuel : Nat) (y : Int) (s : State) :
    (row_body inp r_mask g_mask b_mask raw width fuel y s).1.rows
      = s.rows ++ [{ y := y,
                     pixels := (for_loop (pixel_body inp r_mask g_mask b_mask y)
                       (wrapInt (inp.opts.opt_xoff + raw)) inp.opts.opt_xadv fuel
                       inp.opts.opt_xoff
                       { png_buffer := s.png_buffer, pb_offset := 0, pixels := [] }).1.pixels }] := by
  unfold row_body
  simp only []
  split <;> rename_i h <;> rw [h]

theorem rows_ok_append (inp : Input) (rows : List RowLog) (pixels : List PixelStep)
    (h : rows_ok inp rows)
    (hp : pixels_ok inp (wrapInt (inp.opts.opt_yoff + rows.length * inp.opts.opt_yadv)) pixels) :
    rows_ok inp (rows ++ [
      { y := wrapInt (inp.opts.opt_yoff + rows.length * inp.opts.opt_yadv),
        pixels := pixels }]) := by
  intro oy row hrow
  by_cases hlt : oy < rows.length
  · rw [List.getElem?_append_left hlt] at hrow
    exact h oy row hrow
  · by_cases heq : oy = rows.length
    · subst heq
      simp at hrow
      subst hrow
      exact ⟨rfl, hp⟩
    · rw [List.getElem?_eq_none (by simp; omega)] at hrow
      cases hrow

/-- The log of the row loop is as the loop headers prescribe, for every fuel
and whether or not the loop ends normally. -/
theorem row_loop_rows (inp : Input) (r_mask g_mask b_mask : Int) (raw width bound : Int)
    (fuel fuel1 : Nat) (buf : Int → Nat) (calls : List SinkCall)
    (hx0 : INT_MIN ≤ inp.opts.opt_xoff) (hx1 : inp.opts.opt_xoff ≤ INT_MAX)
    (hy0 : INT_MIN ≤ inp.opts.opt_yoff) (hy1 : inp.opts.opt_yoff ≤ INT_MAX) :
    rows_ok inp (for_loop (row_body inp r_mask g_mask b_mask raw width fuel1) bound
      inp.opts.opt_yadv fuel inp.opts.opt_yoff
      { png_buffer := buf, calls := calls, rows := [] }).1.rows := by
  apply for_loop_invariant (row_body inp r_mask g_mask b_mask raw width fuel1) bound
    inp.opts.opt_yadv
    (fun v s => v = wrapInt (inp.opts.opt_yoff + s.rows.length * inp.opts.opt_yadv) ∧
      rows_ok inp s.rows)
    (fun s => rows_ok inp s.rows)
  · intro v s h
    exact h.2
  · intro v s ⟨hv, hok⟩ _
    rw [row_body_rows]
    constructor
    · rw [hv, wrapInt_add_wrapInt]
      congr 1
      simp
      ring
    · rw [hv]
      apply rows_ok_append inp s.rows _ hok
      exact column_loop_pixels inp r_mask g_mask b_mask _ _ fuel1 _ _ hx0 hx1
  · intro v s ⟨hv, hok⟩
    rw [row_body_rows, hv]
    apply rows_ok_append inp s.rows _ hok
    exact column_loop_pixels inp r_mask g_mask b_mask _ _ fuel1 _ _ hx0 hx1
  · constructor
    · simp [wrapInt_of_range hy0 hy1]
    · intro oy row h
      simp at h

/-- The log of every run of `main` is as the loop headers prescribe. -/
theorem main_rows_ok (inp : Input) (fuel : Nat)
    (hx0 : INT_MIN ≤ inp.opts.opt_xoff) (hx1 : inp.opts.opt_xoff ≤ INT_MAX)
    (hy0 : INT_MIN ≤ inp.opts.opt_yoff) (hy1 : inp.opts.opt_yoff ≤ INT_MAX) :
    rows_ok inp (main fuel inp).rows := by
  have hnil : rows_ok inp [] := by
    intro oy row h
    simp at h
  unfold main
  simp only []
  repeat' split
  all_goals first
    | exact hnil
    | (rename_i h
       have h2 := congrArg Prod.fst h
       simp only at h2
       subst h2
       exact row_loop_rows inp _ _ _ _ _ _ fuel fuel _ _ hx0 hx1 hy0 hy1)

/-! ## Rounding up and down -/

theorem ceil_div_split (raw adv : Int) (hadv : 1 ≤ adv) :
    ceil_div raw adv = (raw % adv + adv - 1) / adv + raw / adv := by
  unfold ceil_div
  have e : raw + adv - 1 = (raw % adv + adv - 1) + (raw / adv) * adv := by
    have := Int.emod_add_ediv raw adv
    linarith
  rw [e, Int.add_mul_ediv_right _ _ (by omega)]

theorem ceil_div_eq_of_dvd {raw adv : Int} (hadv : 1 ≤ adv) (h : adv ∣ raw) :
    ceil_div raw adv = raw / adv := by
  rw [ceil_div_split raw adv hadv, Int.emod_eq_zero_of_dvd h,
    Int.ediv_eq_zero_of_lt (by omega) (by omega)]
  simp

theorem ceil_div_eq_of_not_dvd {raw adv : Int} (hadv : 1 ≤ adv) (h : ¬ adv ∣ raw) :
    ceil_div raw adv = raw / adv + 1 := by
  have h0 : 0 ≤ raw % adv := Int.emod_nonneg _ (by omega)
  have h1 : raw % adv < adv := Int.emod_lt_of_pos _ (by omega)
  have h2 : raw % adv ≠ 0 := fun e => h (Int.dvd_of_emod_eq_zero e)
  have e : raw % adv + adv - 1 = (raw % adv - 1) + 1 * adv := by ring
  rw [ceil_div_split raw adv hadv, e, Int.add_mul_ediv_right _ _ (by omega),
    Int.ediv_eq_zero_of_lt (by omega) (by omega)]
  ring

/-! ## A loop that does not end -/

/-- A loop whose variable stays in a set of values below the bound, and
whose body does not stop, is still running when any amount of fuel is
spent. -/
theorem for_loop_never_ends {σ : Type} (body : Int → σ → σ × Option Stop) (bound adv : Int)
    (S : Int → Prop) (hS : ∀ v, S v → v < bound ∧ S (wrapInt (v + adv)))
    (hbody : ∀ v s, (body v s).2 = none) (fuel : Nat) :
    ∀ (v : Int) (s : σ), S v → (for_loop body bound adv fuel v s).2 = some Stop.out_of_fuel := by
  induction fuel with
  | zero =>
    intro v s hv
    simp [for_loop, (hS v hv).1]
  | succ fuel ih =>
    intro v s hv
    rw [for_loop, if_pos (hS v hv).1]
    have hb := hbody v s
    rcases hbv : body v s with ⟨s1, o⟩
    rw [hbv] at hb
    simp only at hb
    subst hb
    exact ih _ _ (hS v hv).2

theorem wide_stride_row (r_mask g_mask b_mask : Int) (hr : r_mask ≠ 0) (hg : g_mask ≠ 0)
    (hb : b_mask ≠ 0) (width : Int) (fuel : Nat) (y : Int) (s : State) :
    (row_body wide_stride r_mask g_mask b_mask (rawwidth wide_stride) width fuel y s).2
      = some Stop.out_of_fuel := by
  have h := for_loop_never_ends (pixel_body wide_stride r_mask g_mask b_mask y)
    (wrapInt (wide_stride.opts.opt_xoff + rawwidth wide_stride)) wide_stride.opts.opt_xadv
    (fun v => v = 0 ∨ v = 1073741824 ∨ v = -2147483648 ∨ v = -1073741824)
    (by
      intro v hv
      rcases hv with rfl | rfl | rfl | rfl <;> decide)
    (fun v s => pixel_body_continues wide_stride r_mask g_mask b_mask y v s hr hg hb
      (by decide) (by decide) (by decide))
    fuel wide_stride.opts.opt_xoff
    { png_buffer := s.png_buffer, pb_offset := 0, pixels := [] } (Or.inl rfl)
  unfold row_body
  simp only []
  rcases hl : for_loop (pixel_body wide_stride r_mask g_mask b_mask y)
    (wrapInt (wide_stride.opts.opt_xoff + rawwidth wide_stride)) wide_stride.opts.opt_xadv
    fuel wide_stride.opts.opt_xoff
    { png_buffer := s.png_buffer, pb_offset := 0, pixels := [] } with ⟨rs, o⟩
  rw [hl] at h
  simp only at h
  subst h
  rfl

theorem wide_stride_rows (r_mask g_mask b_mask : Int) (hr : r_mask ≠ 0) (hg : g_mask ≠ 0)
    (hb : b_mask ≠ 0) (width : Int) (fuel fuel1 : Nat) (s : State) :
    (for_loop (row_body wide_stride r_mask g_mask b_mask (rawwidth wide_stride) width fuel1)
      (wrapInt (wide_stride.opts.opt_yoff + rawheight wide_stride)) wide_stride.opts.opt_yadv
      fuel wide_stride.opts.opt_yoff s).2 = some Stop.out_of_fuel := by
  have hlt : wide_stride.opts.opt_yoff
      < wrapInt (wide_stride.opts.opt_yoff + rawheight wide_stride) := by decide
  cases fuel with
  | zero => simp [for_loop, hlt]
  | succ fuel =>
    rw [for_loop, if_pos hlt]
    have h := wide_stride_row r_mask g_mask b_mask hr hg hb width fuel1
      wide_stride.opts.opt_yoff s
    rcases hl : row_body wide_stride r_mask g_mask b_mask (rawwidth wide_stride) width fuel1
      wide_stride.opts.opt_yoff s with ⟨s1, o⟩
    rw [hl] at h
    simp only at h
    subst h
    rfl

theorem wide_stride_never_returns (fuel : Nat) :
    (main fuel wide_stride).stop = Stop.out_of_fuel := by
  have hmask : channel_mask 8 = .ok 255 := by decide
  have hr : wide_stride.vinfo.red.length = 8 := rfl
  have hg : wide_stride.vinfo.green.length = 8 := rfl
  have hb : wide_stride.vinfo.blue.length = 8 := rfl
  have hloop := wide_stride_rows 255 255 255 (by decide) (by decide) (by decide)
    (width wide_stride) fuel fuel
    { png_buffer := wide_stride.heap,
      calls := [SinkCall.png_set_IHDR (width wide_stride) (height wide_stride)]
        ++ (if wide_stride.opts.opt_compression_level ≠ -1
            then [SinkCall.png_set_compression_level wide_stride.opts.opt_compression_level]
            else [])
        ++ [SinkCall.png_write_info],
      rows := [] }
  unfold main
  simp only [hr, hg, hb, hmask]
  rw [if_neg (by decide), if_neg (by decide), if_neg (by decide), if_neg (by decide)]
  revert hloop
  rcases for_loop (row_body wide_stride 255 255 255 (rawwidth wide_stride) (width wide_stride)
    fuel) (wrapInt (wide_stride.opts.opt_yoff + rawheight wide_stride))
    wide_stride.opts.opt_yadv fuel wide_stride.opts.opt_yoff _ with ⟨s, o⟩
  intro hloop
  simp only at hloop
  subst hloop
  rfl

/-! ## The 24-bit pixel word -/

theorem add_shift_eq_or {a b : Nat} (i : Nat) (ha : a < 2 ^ i) : a + (b <<< i) = a ||| (b <<< i) := by
  rw [Nat.shiftLeft_eq, Nat.add_comm, Nat.mul_comm, Nat.mul_add_lt_is_or ha b, Nat.lor_comm]

theorem pixel24_eq (b0 b1 b2 : Nat) (h0 : b0 < 256) (h1 : b1 < 256) (h2 : b2 < 256) :
    ((0 + b0) % 4294967296 + (b1 <<< 8)) % 4294967296 + (b2 <<< 16)
      = b0 ||| (b1 <<< 8) ||| (b2 <<< 16) ∧
    ((0 + b0) % 4294967296 + (b1 <<< 8)) % 4294967296 + (b2 <<< 16) < 16777216 := by
  have e1 : b1 <<< 8 = b1 * 256 := by rw [Nat.shiftLeft_eq]
  have e2 : b2 <<< 16 = b2 * 65536 := by rw [Nat.shiftLeft_eq]
  have hm1 : (0 + b0) % 4294967296 = b0 := by omega
  have hm2 : (b0 + (b1 <<< 8)) % 4294967296 = b0 + (b1 <<< 8) := by omega
  rw [hm1, hm2]
  constructor
  · rw [add_shift_eq_or 16 (by omega : b0 + (b1 <<< 8) < 2 ^ 16),
      add_shift_eq_or 8 (by omega : b0 < 2 ^ 8)]
  · omega

/-! ## The claims -/

/-- C1 (the code departs from the claim): with three rows of which every
second is taken, `png_set_IHDR` announces height `3 / 2 = 1`, but the row
loop runs for `y = 0` and `y = 2` and `png_write_row` is called twice before
`png_write_end`. -/
theorem c1_rows_written_exceed_header :
    main 2 three_rows_skip_one =
      { calls := [SinkCall.png_set_IHDR 1 1, SinkCall.png_write_info,
          SinkCall.png_write_row [3, 2, 1], SinkCall.png_write_row [9, 8, 7],
          SinkCall.png_write_end],
        rows := [⟨0, [⟨0, 0, [0, 1, 2]⟩]⟩, ⟨2, [⟨0, 8, [0, 1, 2]⟩]⟩],
        stop := Stop.returned 0 } := by
  decide

/-- C2 (the code departs from the claim): with three columns of which every
second is taken, the row buffer is allocated with `3 / 2 * 3 = 3` bytes, but
the column loop runs for `x = 0` and `x = 2` and stores to the indices
3, 4 and 5 as well. -/
theorem c2_stores_past_row_buffer :
    png_buffer_size three_columns_skip_one = 3 ∧
    (main 2 three_columns_skip_one).rows
      = [⟨0, [⟨0, 0, [0, 1, 2]⟩, ⟨2, 8, [3, 4, 5]⟩]⟩] ∧
    (main 2 three_columns_skip_one).stop = Stop.returned 0 := by
  decide

/-- C3 (the code departs from the claim): on a 32-bit device with 10-bit
channels a white pixel (all three channels at 1023) is stored as
(63, 63, 63), because each raw value is cut to 8 bits before it is scaled;
`(raw * 255) / mask` is 255 for each channel. -/
theorem c3_ten_bit_channels_truncated :
    read_pixel 32 white_2101010.fbp 0 = 1073741823 ∧
    (main 1 white_2101010).calls
      = [SinkCall.png_set_IHDR 1 1, SinkCall.png_write_info,
          SinkCall.png_write_row [63, 63, 63], SinkCall.png_write_end] ∧
    spec_channel_byte white_2101010.vinfo.red 1073741823 = 255 ∧
    spec_channel_byte white_2101010.vinfo.green 1073741823 = 255 ∧
    spec_channel_byte white_2101010.vinfo.blue 1073741823 = 255 := by
  decide

/-- C4 (the code departs from the claim): for the channel of width 10 at
offset 20 of a 32-bit pixel, the word whose channel bits are all set is
converted to 63, not to 255; the word whose channel bits are all zero is
converted to 0, and the 5-bit channel of the claim's example to 255 and 0. -/
theorem c4_maximum_of_wide_channel :
    channel_byte ⟨20, 10⟩ 0x3FF00000 = Except.ok 63 ∧
    channel_byte ⟨20, 10⟩ 0xC00FFFFF = Except.ok 0 ∧
    channel_byte ⟨11, 5⟩ 0xF800 = Except.ok 255 ∧
    channel_byte ⟨11, 5⟩ 0x07FF = Except.ok 0 := by
  decide

/-- C6 (the code departs from the claim): on a device whose red channel has
no bits the program calls `png_set_IHDR` and `png_write_info`, enters the
loops and stops in the first pixel at the division by the zero mask. -/
theorem c6_zero_width_channel_reaches_sink :
    main 1 no_red_bits =
      { calls := [SinkCall.png_set_IHDR 1 1, SinkCall.png_write_info],
        rows := [⟨0, [⟨0, 0, []⟩]⟩],
        stop := Stop.divide_by_zero } := by
  decide

/-- C7 (the code departs from the claim): for the channel of width 10 at
offset 20, two words with all other bits zero and raw channel values 255 and
256 are converted to 63 and 0. -/
theorem c7_wide_channel_not_monotonic :
    (0x0FF00000 >>> 20) &&& 1023 = 255 ∧ (0x10000000 >>> 20) &&& 1023 = 256 ∧
    channel_byte ⟨20, 10⟩ 0x0FF00000 = Except.ok 63 ∧
    channel_byte ⟨20, 10⟩ 0x10000000 = Except.ok 0 := by
  decide

/-- C8: for a 24-bit source the pixel word built from the three bytes at
`off`, `off + 1`, `off + 2` is `b0 | b1 << 8 | b2 << 16`, it is below `2^24`,
and a framebuffer that agrees on these three bytes gives the same word
whatever its other bytes are. -/
theorem c8_pixel24 (fbp fbp1 : Nat → Nat) (off : Nat) (h0 : fbp1 off = fbp off)
    (h1 : fbp1 (off + 1) = fbp (off + 1)) (h2 : fbp1 (off + 2) = fbp (off + 2)) :
    read_pixel 24 fbp off
      = byte_at fbp off ||| (byte_at fbp (off + 1) <<< 8) ||| (byte_at fbp (off + 2) <<< 16) ∧
    read_pixel 24 fbp off < 2 ^ 24 ∧
    read_pixel 24 fbp1 off = read_pixel 24 fbp off := by
  have hb : ∀ i, byte_at fbp i < 256 := fun i => Nat.mod_lt _ (by decide)
  have e := pixel24_eq (byte_at fbp off) (byte_at fbp (off + 1)) (byte_at fbp (off + 2))
    (hb _) (hb _) (hb _)
  have hlt : ((0 + byte_at fbp off) % 4294967296 + (byte_at fbp (off + 1) <<< 8)) % 4294967296
      + (byte_at fbp (off + 2) <<< 16) < 4294967296 := by omega
  refine ⟨?_, ?_, ?_⟩
  · simp only [read_pixel, if_neg (by decide : ¬ (24 : Nat) = 16), if_true]
    rw [Nat.mod_eq_of_lt hlt]
    exact e.1
  · simp only [read_pixel, if_neg (by decide : ¬ (24 : Nat) = 16), if_true]
    rw [Nat.mod_eq_of_lt hlt]
    exact e.2
  · simp only [read_pixel, byte_at, h0, h1, h2, if_neg (by decide : ¬ (24 : Nat) = 16), if_true]

/-- Witness for C8: two framebuffers that differ in the byte at offset 3
and beyond. -/
theorem c8_pixel24_witness :
    read_pixel 24 (mem [1, 2, 3, 4, 5]) 0
      = byte_at (mem [1, 2, 3, 4, 5]) 0 ||| (byte_at (mem [1, 2, 3, 4, 5]) 1 <<< 8)
        ||| (byte_at (mem [1, 2, 3, 4, 5]) 2 <<< 16) ∧
    read_pixel 24 (mem [1, 2, 3, 4, 5]) 0 < 2 ^ 24 ∧
    read_pixel 24 (mem [1, 2, 3, 200, 7]) 0 = read_pixel 24 (mem [1, 2, 3, 4, 5]) 0 :=
  c8_pixel24 (mem [1, 2, 3, 4, 5]) (mem [1, 2, 3, 200, 7]) 0 (by decide) (by decide) (by decide)

/-- C10: for a channel of 1 to 8 bits the 8-bit variable holds the masked
raw value unchanged, the quotient is at most 255 and the byte stored is
`((pixel >> offset) & mask) * 255 / mask` with `mask = 2^length - 1`; for a
channel of 9 to 30 bits the byte stored is
`(((pixel >> offset) & mask) mod 256) * 255 / mask`. -/
theorem c10_channel_byte (field : fb_bitfield) (pixel : Nat) (h1 : 1 ≤ field.length)
    (h30 : field.length ≤ 30) (ho : field.offset < 32) :
    (field.length ≤ 8 →
      channel_raw pixel field.offset (2 ^ field.length - 1)
        = Except.ok ((pixel >>> field.offset) &&& (2 ^ field.length - 1)) ∧
      ((pixel >>> field.offset) &&& (2 ^ field.length - 1)) * 255 / (2 ^ field.length - 1)
        ≤ 255 ∧
      channel_byte field pixel
        = Except.ok (((pixel >>> field.offset) &&& (2 ^ field.length - 1)) * 255
            / (2 ^ field.length - 1))) ∧
    (9 ≤ field.length →
      channel_byte field pixel
        = Except.ok ((((pixel >>> field.offset) &&& (2 ^ field.length - 1)) % 256) * 255
            / (2 ^ field.length - 1))) := by
  have h32 : field.length < 32 := by omega
  constructor
  · intro h8
    have hlt : (pixel >>> field.offset) &&& (2 ^ field.length - 1) < 256 := by
      have hle : (pixel >>> field.offset) &&& (2 ^ field.length - 1) ≤ 2 ^ field.length - 1 :=
        Nat.and_le_right
      have hpow : 2 ^ field.length ≤ 2 ^ 8 := Nat.pow_le_pow_right (by decide) h8
      omega
    have hmod : ((pixel >>> field.offset) &&& (2 ^ field.length - 1)) % 256
        = (pixel >>> field.offset) &&& (2 ^ field.length - 1) := Nat.mod_eq_of_lt hlt
    refine ⟨?_, ?_, ?_⟩
    · simp only [channel_raw, if_pos ho, toU32_mask h32, hmod]
    · apply Nat.div_le_of_le_mul
      exact Nat.mul_le_mul_right 255 Nat.and_le_right
    · rw [channel_byte_eq field pixel h1 h32 ho, hmod]
  · intro _
    exact channel_byte_eq field pixel h1 h32 ho

/-- Witness for C10: the 5-bit red channel of RGB565 at its maximum, and a
10-bit channel at its maximum. -/
theorem c10_channel_byte_witness :
    channel_byte ⟨11, 5⟩ 0xF800 = Except.ok 255 ∧
    channel_byte ⟨20, 10⟩ 0x3FF00000 = Except.ok 63 :=
  ⟨((c10_channel_byte ⟨11, 5⟩ 0xF800 (by decide) (by decide) (by decide)).1 (by decide)).2.2,
   (c10_channel_byte ⟨20, 10⟩ 0x3FF00000 (by decide) (by decide) (by decide)).2 (by decide)⟩

/-- C5 (counterexample): on a device with 8192 bytes per row the pixel of
row 524288, column 0 is read from byte offset 0, whereas the formula of the
claim gives `524288 * 8192 = 4294967296`. -/
theorem c5_offset_wraps :
    (main 1 far_row).rows = [⟨524288, [⟨0, 0, [0, 1, 2]⟩]⟩] ∧
    spec_fb_offset far_row.vinfo far_row.finfo 0 524288 = 4294967296 ∧
    ¬ ∀ row ∈ (main 1 far_row).rows, ∀ px ∈ row.pixels,
        (px.fb_offset : Int) = spec_fb_offset far_row.vinfo far_row.finfo px.x row.y := by
  decide

/-- C5 (amended): in every run, the pixel logged at position `ox` of row
`oy` is at column `opt_xoff + ox * opt_xadv` and row `opt_yoff + oy * opt_yadv`
as `int` values, and is read from the byte offset
`(xoffset + column) * (bits_per_pixel / 8) + (yoffset + row) * line_length`
reduced modulo `2^32`.  Where the column and the row fit in `int` they are
these sums themselves, and where the offset formula has a value in
`0 .. 2^32 - 1` the offset read from is that value. -/
theorem c5_source_pixel (inp : Input) (fuel : Nat)
    (hx0 : INT_MIN ≤ inp.opts.opt_xoff) (hx1 : inp.opts.opt_xoff ≤ INT_MAX)
    (hy0 : INT_MIN ≤ inp.opts.opt_yoff) (hy1 : inp.opts.opt_yoff ≤ INT_MAX)
    (oy ox : Nat) (row : RowLog) (px : PixelStep)
    (hrow : (main fuel inp).rows[oy]? = some row) (hpx : row.pixels[ox]? = some px) :
    row.y = wrapInt (inp.opts.opt_yoff + oy * inp.opts.opt_yadv) ∧
    px.x = wrapInt (inp.opts.opt_xoff + ox * inp.opts.opt_xadv) ∧
    (px.fb_offset : Int)
      = spec_fb_offset inp.vinfo inp.finfo (inp.opts.opt_xoff + ox * inp.opts.opt_xadv)
          (inp.opts.opt_yoff + oy * inp.opts.opt_yadv) % 4294967296 ∧
    (INT_MIN ≤ inp.opts.opt_yoff + oy * inp.opts.opt_yadv →
      inp.opts.opt_yoff + oy * inp.opts.opt_yadv ≤ INT_MAX →
      row.y = inp.opts.opt_yoff + oy * inp.opts.opt_yadv) ∧
    (INT_MIN ≤ inp.opts.opt_xoff + ox * inp.opts.opt_xadv →
      inp.opts.opt_xoff + ox * inp.opts.opt_xadv ≤ INT_MAX →
      px.x = inp.opts.opt_xoff + ox * inp.opts.opt_xadv) ∧
    (0 ≤ spec_fb_offset inp.vinfo inp.finfo (inp.opts.opt_xoff + ox * inp.opts.opt_xadv)
          (inp.opts.opt_yoff + oy * inp.opts.opt_yadv) →
      spec_fb_offset inp.vinfo inp.finfo (inp.opts.opt_xoff + ox * inp.opts.opt_xadv)
          (inp.opts.opt_yoff + oy * inp.opts.opt_yadv) < 4294967296 →
      (px.fb_offset : Int)
        = spec_fb_offset inp.vinfo inp.finfo (inp.opts.opt_xoff + ox * inp.opts.opt_xadv)
            (inp.opts.opt_yoff + oy * inp.opts.opt_yadv)) := by
  obtain ⟨hy, hp⟩ := main_rows_ok inp fuel hx0 hx1 hy0 hy1 oy row hrow
  obtain ⟨hx, hoff⟩ := hp ox px hpx
  have hmod : (px.fb_offset : Int)
      = spec_fb_offset inp.vinfo inp.finfo (inp.opts.opt_xoff + ox * inp.opts.opt_xadv)
          (inp.opts.opt_yoff + oy * inp.opts.opt_yadv) % 4294967296 := by
    rw [hoff, hx, hy]
    exact fb_offset_wrap inp.vinfo inp.finfo _ _
  refine ⟨hy, hx, hmod, ?_, ?_, ?_⟩
  · intro h1 h2
    rw [hy, wrapInt_of_range h1 h2]
  · intro h1 h2
    rw [hx, wrapInt_of_range h1 h2]
  · intro h1 h2
    rw [hmod]
    exact Int.emod_eq_of_lt h1 h2

/-- Witness for C5: the pixel at row 1, column 1 of the two by two capture
is read from byte offset `1 * 4 + 1 * 8 = 12`. -/
theorem c5_source_pixel_witness :
    (main 2 scenario_a).rows[1]? = some ⟨1, [⟨0, 8, [0, 1, 2]⟩, ⟨1, 12, [3, 4, 5]⟩]⟩ ∧
    ((12 : Nat) : Int) = spec_fb_offset scenario_a.vinfo scenario_a.finfo
      (scenario_a.opts.opt_xoff + (1 : Nat) * scenario_a.opts.opt_xadv)
      (scenario_a.opts.opt_yoff + (1 : Nat) * scenario_a.opts.opt_yadv) :=
  ⟨by decide,
   (c5_source_pixel scenario_a 2 (by decide) (by decide) (by decide) (by decide) 1 1
      ⟨1, [⟨0, 8, [0, 1, 2]⟩, ⟨1, 12, [3, 4, 5]⟩]⟩ ⟨1, 12, [3, 4, 5]⟩
      (by decide) (by decide)).2.2.2.2.2 (by decide) (by decide)⟩

end Fb2png
